import Mathlib

/-
  Verification of the quadratic Bézier engine specified for the
  TSQuadBezier repository.  The repository ships the Angular demo
  (app component and quad-bezier directive) together with the
  IPlanarCurve/IControlPoints interface; the numeric engine itself
  (TSMT$QuadBezier with its integrator and root finder) is declared
  and called but its implementation file is not part of the sources,
  so the engine operations below are modelled from the specification
  and every theorem about them is settled against that model.
  Real numbers stand for the floating-point values of the original
  code; non-finite inputs (NaN / Infinity), which the specification
  treats as validation failures, are modelled by an explicit tagged
  value type.
-/

namespace QuadBezier

/-- Modelled from the spec: the error taxonomy of section 7 of the
specification (InvalidGeometry, DegenerateInterpolation, OutOfRange);
the engine source declaring them is not in the repository sources. -/
inductive TSError where
  | InvalidGeometry : TSError
  | DegenerateInterpolation : TSError
  | OutOfRange : TSError
deriving DecidableEq

/-- Modelled from the spec: the ControlPoints record of section 3 —
eight real coordinates `(x0, y0, cx, cy, x1, y1)` plus the auxiliary
duplicate control handle `(cx1, cy1)` of the legacy two-handle
representation, matching the IControlPoints interface fields. -/
structure ControlPoints where
  x0 : ℝ
  y0 : ℝ
  cx : ℝ
  cy : ℝ
  cx1 : ℝ
  cy1 : ℝ
  x1 : ℝ
  y1 : ℝ

/-- Modelled from the spec: quadratic coefficient of the component
polynomial `p0·(1-t)² + 2·c·(1-t)·t + p1·t²` rewritten in power form
`a·t² + b·t + c₀` (section 4.5 solves exactly this quadratic). -/
def coefA (p0 c p1 : ℝ) : ℝ := p0 - 2 * c + p1

/-- Modelled from the spec: linear coefficient of the component
polynomial in power form. -/
def coefB (p0 c : ℝ) : ℝ := 2 * (c - p0)

/-- Modelled from the spec: `getX(t)` evaluates the x-component of the
quadratic Bézier at any real `t`, with no clamping (section 4.1); the
engine source is not in the repository sources. -/
def getX (cp : ControlPoints) (t : ℝ) : ℝ :=
  coefA cp.x0 cp.cx cp.x1 * t ^ 2 + coefB cp.x0 cp.cx * t + cp.x0

/-- Modelled from the spec: `getY(t)` evaluates the y-component of the
quadratic Bézier at any real `t`, with no clamping (section 4.1). -/
def getY (cp : ControlPoints) (t : ℝ) : ℝ :=
  coefA cp.y0 cp.cy cp.y1 * t ^ 2 + coefB cp.y0 cp.cy * t + cp.y0

/-- Modelled from the spec: `getXPrime(t)` evaluates the x-component of
the derivative `B'(t) = 2(1-t)(P1-P0) + 2t(P2-P1)` (section 4.1). -/
def getXPrime (cp : ControlPoints) (t : ℝ) : ℝ :=
  2 * (1 - t) * (cp.cx - cp.x0) + 2 * t * (cp.x1 - cp.cx)

/-- Modelled from the spec: `getYPrime(t)` evaluates the y-component of
the derivative `B'(t) = 2(1-t)(P1-P0) + 2t(P2-P1)` (section 4.1). -/
def getYPrime (cp : ControlPoints) (t : ℝ) : ℝ :=
  2 * (1 - t) * (cp.cy - cp.y0) + 2 * t * (cp.y1 - cp.cy)

/-- The concrete scenario curve of section 8 of the specification:
`P0 = (0,0)`, `P1 = (50,100)`, `P2 = (100,0)` (the duplicate handle
carries the same control point). -/
def demoCurve : ControlPoints := ⟨0, 0, 50, 100, 50, 100, 100, 0⟩

/-- C4: for every real `t` (no clamping), `getX`/`getY` equal the
quadratic Bézier formula `(1-t)²·P0 + 2(1-t)t·P1 + t²·P2`
componentwise; hence `getX 0 = x0`, `getY 0 = y0`, `getX 1 = x1`,
`getY 1 = y1` for all control points, and on the demo curve
`P0=(0,0), P1=(50,100), P2=(100,0)` we get `getX 0.5 = 50` and
`getY 0.5 = 50`. -/
theorem C4_evaluation :
    (∀ cp : ControlPoints, ∀ t : ℝ,
      getX cp t = (1 - t) ^ 2 * cp.x0 + 2 * (1 - t) * t * cp.cx + t ^ 2 * cp.x1 ∧
      getY cp t = (1 - t) ^ 2 * cp.y0 + 2 * (1 - t) * t * cp.cy + t ^ 2 * cp.y1) ∧
    (∀ cp : ControlPoints,
      getX cp 0 = cp.x0 ∧ getY cp 0 = cp.y0 ∧ getX cp 1 = cp.x1 ∧ getY cp 1 = cp.y1) ∧
    getX demoCurve (1 / 2) = 50 ∧ getY demoCurve (1 / 2) = 50 := by
  refine ⟨fun cp t => ⟨?_, ?_⟩, fun cp => ⟨?_, ?_, ?_, ?_⟩, ?_, ?_⟩ <;>
    simp only [getX, getY, coefA, coefB, demoCurve] <;> ring_nf

/-- Modelled from the spec: the closed-form quadratic root solver of
section 4.5 (RootFinder); the engine source is not in the repository
sources.  Solves `a·t² + b·t + c = 0` with the standard discriminant
test, returning zero, one, or two roots; when `a` vanishes it falls
back to the linear solve `t = -c/b` (and to no roots when `b` also
vanishes). -/
noncomputable def solveQuadratic (a b c : ℝ) : List ℝ :=
  if a = 0 then
    if b = 0 then [] else [-c / b]
  else if b ^ 2 - 4 * a * c < 0 then []
  else if b ^ 2 - 4 * a * c = 0 then [-b / (2 * a)]
  else [(-b - Real.sqrt (b ^ 2 - 4 * a * c)) / (2 * a),
        (-b + Real.sqrt (b ^ 2 - 4 * a * c)) / (2 * a)]

/-- Modelled from the spec: roots outside `[0,1]` are discarded — they
correspond to points outside the curve's valid domain (section 4.5). -/
noncomputable def inRangeRoots (roots : List ℝ) : List ℝ :=
  roots.filter fun t => decide (0 ≤ t ∧ t ≤ 1)

/-- Modelled from the spec: `getTAtX(x)` solves the quadratic
`a·t² + b·t + c = 0` for the x-component and keeps the roots in
`[0,1]` (section 4.5). -/
noncomputable def getTAtX (cp : ControlPoints) (x : ℝ) : List ℝ :=
  inRangeRoots (solveQuadratic (coefA cp.x0 cp.cx cp.x1) (coefB cp.x0 cp.cx) (cp.x0 - x))

/-- Modelled from the spec: the y-component root solve backing
`getXAtY` (section 4.5). -/
noncomputable def getTAtY (cp : ControlPoints) (y : ℝ) : List ℝ :=
  inRangeRoots (solveQuadratic (coefA cp.y0 cp.cy cp.y1) (coefB cp.y0 cp.cy) (cp.y0 - y))

/-- Modelled from the spec: `getYAtX` evaluates `y(t)` at each root
returned by `getTAtX` (section 4.5). -/
noncomputable def getYAtX (cp : ControlPoints) (x : ℝ) : List ℝ :=
  (getTAtX cp x).map (getY cp)

/-- Modelled from the spec: `getXAtY` evaluates `x(t)` at each root
returned by the y-component solve (section 4.5). -/
noncomputable def getXAtY (cp : ControlPoints) (y : ℝ) : List ℝ :=
  (getTAtY cp y).map (getX cp)

/-- A curve whose x-component has an interior extremum: `P0 = (0,0)`,
`P1 = (100,50)`, `P2 = (0,100)`; `x(t) = 200·t·(1-t)` peaks at `x = 50`
for `t = 1/2` while both endpoints sit at `x = 0`. -/
def xDemoCurve : ControlPoints := ⟨0, 0, 100, 50, 100, 50, 0, 100⟩

lemma solveQuadratic_length (a b c : ℝ) : (solveQuadratic a b c).length ≤ 2 := by
  unfold solveQuadratic
  split_ifs <;> simp

lemma solveQuadratic_root {a b c t : ℝ} (h : t ∈ solveQuadratic a b c) :
    a * t ^ 2 + b * t + c = 0 := by
  unfold solveQuadratic at h
  split_ifs at h with ha hb hd hd0
  · simp at h
  · simp only [List.mem_singleton] at h
    subst h
    rw [ha]
    field_simp
    ring
  · simp at h
  · simp only [List.mem_singleton] at h
    subst h
    field_simp
    nlinarith [hd0]
  · have hd' : 0 ≤ b ^ 2 - 4 * a * c := not_lt.mp hd
    have hsq : Real.sqrt (b ^ 2 - 4 * a * c) ^ 2 = b ^ 2 - 4 * a * c :=
      Real.sq_sqrt hd'
    simp only [List.mem_cons, List.mem_singleton, List.not_mem_nil, or_false] at h
    rcases h with h | h <;> subst h <;> field_simp <;> nlinarith [hsq]

lemma inRangeRoots_mem {roots : List ℝ} {t : ℝ} (h : t ∈ inRangeRoots roots) :
    t ∈ roots ∧ 0 ≤ t ∧ t ≤ 1 := by
  unfold inRangeRoots at h
  have h' := List.mem_filter.mp h
  exact ⟨h'.1, of_decide_eq_true h'.2⟩

/-- C5: `getTAtX` solves the quadratic `a·t² + b·t + c = 0` in closed
form and returns zero, one, or two roots, all inside `[0,1]` and all
mapped back to the queried coordinate by `getX`; `getYAtX`/`getXAtY`
evaluate `y(t)`/`x(t)` at each returned root; an empty list (not an
error) encodes that no real root lies in range; and on the curve with
an interior x-extremum (`x = 50` at `t = 1/2`, endpoints at `x = 0`)
there are two roots at `x = 25`, one root at the extremum `x = 50`,
and none at `x = 60`. -/
theorem C5_inversion :
    (∀ cp : ControlPoints, ∀ x : ℝ, (getTAtX cp x).length ≤ 2) ∧
    (∀ cp : ControlPoints, ∀ x t : ℝ, t ∈ getTAtX cp x →
      (0 ≤ t ∧ t ≤ 1) ∧ getX cp t = x) ∧
    (∀ cp : ControlPoints, ∀ x : ℝ, getYAtX cp x = (getTAtX cp x).map (getY cp)) ∧
    (∀ cp : ControlPoints, ∀ y : ℝ, getXAtY cp y = (getTAtY cp y).map (getX cp)) ∧
    (getTAtX xDemoCurve 25).length = 2 ∧
    getTAtX xDemoCurve 50 = [1 / 2] ∧
    getTAtX xDemoCurve 60 = [] := by
  have hlen : ∀ cp : ControlPoints, ∀ x : ℝ, (getTAtX cp x).length ≤ 2 := by
    intro cp x
    calc (getTAtX cp x).length
        ≤ (solveQuadratic (coefA cp.x0 cp.cx cp.x1) (coefB cp.x0 cp.cx)
            (cp.x0 - x)).length := List.length_filter_le _ _
      _ ≤ 2 := solveQuadratic_length _ _ _
  have hmem : ∀ cp : ControlPoints, ∀ x t : ℝ, t ∈ getTAtX cp x →
      (0 ≤ t ∧ t ≤ 1) ∧ getX cp t = x := by
    intro cp x t ht
    obtain ⟨hroot, hrange⟩ := inRangeRoots_mem ht
    refine ⟨hrange, ?_⟩
    have h0 := solveQuadratic_root hroot
    simp only [getX]
    linarith [h0]
  have hs0 : (0:ℝ) ≤ Real.sqrt 20000 := Real.sqrt_nonneg _
  have hs2 : Real.sqrt 20000 ≤ 200 := by
    rw [show (200:ℝ) = Real.sqrt (200 ^ 2) from (Real.sqrt_sq (by norm_num)).symm]
    exact Real.sqrt_le_sqrt (by norm_num)
  have h25 : (getTAtX xDemoCurve 25).length = 2 := by
    have e1 : coefA xDemoCurve.x0 xDemoCurve.cx xDemoCurve.x1 = -200 := by
      norm_num [xDemoCurve, coefA]
    have e2 : coefB xDemoCurve.x0 xDemoCurve.cx = 200 := by
      norm_num [xDemoCurve, coefB]
    have e3 : xDemoCurve.x0 - (25:ℝ) = -25 := by
      norm_num [xDemoCurve]
    rw [getTAtX, e1, e2, e3, solveQuadratic]
    rw [if_neg (by norm_num : ¬(-200:ℝ) = 0)]
    rw [if_neg (by norm_num : ¬((200:ℝ) ^ 2 - 4 * (-200) * (-25) < 0)),
        if_neg (by norm_num : ¬((200:ℝ) ^ 2 - 4 * (-200) * (-25) = 0))]
    have hd : (200:ℝ) ^ 2 - 4 * (-200) * (-25) = 20000 := by norm_num
    rw [hd]
    unfold inRangeRoots
    rw [List.filter_cons_of_pos, List.filter_cons_of_pos, List.filter_nil]
    · rfl
    · refine decide_eq_true ?_
      constructor
      · rw [show (-(200:ℝ) + Real.sqrt 20000) / (2 * -200)
            = (200 - Real.sqrt 20000) / 400 by ring]
        apply div_nonneg _ (by norm_num)
        linarith
      · rw [show (-(200:ℝ) + Real.sqrt 20000) / (2 * -200)
            = (200 - Real.sqrt 20000) / 400 by ring]
        rw [div_le_one (by norm_num)]
        linarith
    · refine decide_eq_true ?_
      constructor
      · rw [show (-(200:ℝ) - Real.sqrt 20000) / (2 * -200)
            = (200 + Real.sqrt 20000) / 400 by ring]
        apply div_nonneg _ (by norm_num)
        linarith
      · rw [show (-(200:ℝ) - Real.sqrt 20000) / (2 * -200)
            = (200 + Real.sqrt 20000) / 400 by ring]
        rw [div_le_one (by norm_num)]
        linarith
  have h50 : getTAtX xDemoCurve 50 = [1 / 2] := by
    have e1 : coefA xDemoCurve.x0 xDemoCurve.cx xDemoCurve.x1 = -200 := by
      norm_num [xDemoCurve, coefA]
    have e2 : coefB xDemoCurve.x0 xDemoCurve.cx = 200 := by
      norm_num [xDemoCurve, coefB]
    have e3 : xDemoCurve.x0 - (50:ℝ) = -50 := by
      norm_num [xDemoCurve]
    rw [getTAtX, e1, e2, e3, solveQuadratic]
    rw [if_neg (by norm_num : ¬(-200:ℝ) = 0)]
    rw [if_neg (by norm_num : ¬((200:ℝ) ^ 2 - 4 * (-200) * (-50) < 0)),
        if_pos (by norm_num : ((200:ℝ) ^ 2 - 4 * (-200) * (-50) = 0))]
    unfold inRangeRoots
    rw [List.filter_cons_of_pos, List.filter_nil]
    · norm_num
    · exact decide_eq_true (by norm_num)
  have h60 : getTAtX xDemoCurve 60 = [] := by
    have e1 : coefA xDemoCurve.x0 xDemoCurve.cx xDemoCurve.x1 = -200 := by
      norm_num [xDemoCurve, coefA]
    have e2 : coefB xDemoCurve.x0 xDemoCurve.cx = 200 := by
      norm_num [xDemoCurve, coefB]
    have e3 : xDemoCurve.x0 - (60:ℝ) = -60 := by
      norm_num [xDemoCurve]
    rw [getTAtX, e1, e2, e3, solveQuadratic]
    rw [if_neg (by norm_num : ¬(-200:ℝ) = 0)]
    rw [if_pos (by norm_num : ((200:ℝ) ^ 2 - 4 * (-200) * (-60) < 0))]
    rfl
  exact ⟨hlen, hmem, fun cp x => rfl, fun cp y => rfl, h25, h50, h60⟩

/-- Witness for C5 at a concrete input: the root returned for `x = 50`
on the extremum curve lies in `[0,1]` and maps back to `50`. -/
theorem C5_inversion_witness :
    ((0 ≤ (1/2:ℝ) ∧ (1/2:ℝ) ≤ 1) ∧ getX xDemoCurve (1/2) = 50) :=
  C5_inversion.2.1 xDemoCurve 50 (1/2)
    (by rw [C5_inversion.2.2.2.2.2.1]; exact List.mem_singleton.mpr rfl)

/-- Modelled from the spec: a planar point (the IPoint interface of
the repository sources). -/
structure Pt where
  x : ℝ
  y : ℝ

/-- Modelled from the spec: Euclidean chord length between two input
points, used by the chord-length heuristic of section 4.2. -/
noncomputable def chord (P Q : Pt) : ℝ :=
  Real.sqrt ((Q.x - P.x) ^ 2 + (Q.y - P.y) ^ 2)

/-- Modelled from the spec: the natural parameter at which the middle
interpolation point is hit, `tMid = |M-A| / (|M-A| + |B-M|)`
(section 4.2). -/
noncomputable def interpTMid (A M B : Pt) : ℝ :=
  chord A M / (chord A M + chord M B)

/-- Modelled from the spec: the x-coordinate of the derived control
point `P1 = (M - (1-tMid)²·A - tMid²·B) / (2·(1-tMid)·tMid)`
(section 4.2). -/
noncomputable def interpP1x (A M B : Pt) : ℝ :=
  (M.x - (1 - interpTMid A M B) ^ 2 * A.x - interpTMid A M B ^ 2 * B.x) /
    (2 * (1 - interpTMid A M B) * interpTMid A M B)

/-- Modelled from the spec: the y-coordinate of the derived control
point `P1 = (M - (1-tMid)²·A - tMid²·B) / (2·(1-tMid)·tMid)`. -/
noncomputable def interpP1y (A M B : Pt) : ℝ :=
  (M.y - (1 - interpTMid A M B) ^ 2 * A.y - interpTMid A M B ^ 2 * B.y) /
    (2 * (1 - interpTMid A M B) * interpTMid A M B)

/-- Modelled from the spec: three-point interpolation (section 4.2);
the engine source is not in the repository sources.  The directive
always passes a three-element array `[first endpoint, middle point,
second endpoint]`, modelled here as three ordered arguments.  Sets
`P0 = A`, `P2 = B`, chooses `tMid` by the chord-length fraction and
solves `B(tMid) = M` for `P1` (the duplicate handle receives the same
control point); fails with `DegenerateInterpolation` when the chord
lengths sum to zero (coincident input points). -/
noncomputable def interpolate (A M B : Pt) : Except TSError (ℝ × ControlPoints) :=
  if chord A M + chord M B = 0 then .error .DegenerateInterpolation
  else
    .ok (interpTMid A M B,
      ⟨A.x, A.y, interpP1x A M B, interpP1y A M B,
       interpP1x A M B, interpP1y A M B, B.x, B.y⟩)

lemma chord_nonneg (P Q : Pt) : 0 ≤ chord P Q := Real.sqrt_nonneg _

lemma chord_eq_zero {P Q : Pt} : chord P Q = 0 ↔ P = Q := by
  obtain ⟨px, py⟩ := P
  obtain ⟨qx, qy⟩ := Q
  unfold chord
  rw [Real.sqrt_eq_zero']
  simp only [Pt.mk.injEq]
  constructor
  · intro h
    constructor
    · nlinarith [sq_nonneg (qx - px), sq_nonneg (qy - py)]
    · nlinarith [sq_nonneg (qx - px), sq_nonneg (qy - py)]
  · rintro ⟨rfl, rfl⟩
    norm_num

lemma bezier_through {ax bx mx t : ℝ} (ht0 : t ≠ 0) (ht1 : 1 - t ≠ 0) :
    coefA ax ((mx - (1 - t) ^ 2 * ax - t ^ 2 * bx) / (2 * (1 - t) * t)) bx * t ^ 2 +
      coefB ax ((mx - (1 - t) ^ 2 * ax - t ^ 2 * bx) / (2 * (1 - t) * t)) * t + ax
      = mx := by
  unfold coefA coefB
  field_simp
  ring

/-- C3: for three points `A, M, B` that are not all coincident,
`interpolate` succeeds and sets `P0 = A`, `P2 = B`,
`tMid = |M-A|/(|M-A|+|B-M|)` and
`P1 = (M - (1-tMid)²·A - tMid²·B) / (2·(1-tMid)·tMid)`, and the
resulting curve passes through the middle point:
`getX tMid = M.x` and `getY tMid = M.y`; when `A`, `M`, `B` are
coincident (the chord lengths sum to zero) it fails with
`DegenerateInterpolation`. -/
theorem C3_interpolation :
    (∀ A M B : Pt, ¬(A = M ∧ M = B) →
      ∃ t : ℝ, ∃ cp : ControlPoints, interpolate A M B = .ok (t, cp) ∧
        t = chord A M / (chord A M + chord M B) ∧
        cp.x0 = A.x ∧ cp.y0 = A.y ∧ cp.x1 = B.x ∧ cp.y1 = B.y ∧
        cp.cx = (M.x - (1 - t) ^ 2 * A.x - t ^ 2 * B.x) / (2 * (1 - t) * t) ∧
        cp.cy = (M.y - (1 - t) ^ 2 * A.y - t ^ 2 * B.y) / (2 * (1 - t) * t) ∧
        getX cp t = M.x ∧ getY cp t = M.y) ∧
    (∀ A M B : Pt, (A = M ∧ M = B) →
      interpolate A M B = .error .DegenerateInterpolation) := by
  constructor
  · intro A M B hne
    have hsum : chord A M + chord M B ≠ 0 := by
      intro h0
      have h1 : chord A M = 0 := by
        nlinarith [chord_nonneg A M, chord_nonneg M B]
      have h2 : chord M B = 0 := by
        nlinarith [chord_nonneg A M, chord_nonneg M B]
      exact hne ⟨chord_eq_zero.mp h1, chord_eq_zero.mp h2⟩
    refine ⟨interpTMid A M B,
      ⟨A.x, A.y, interpP1x A M B, interpP1y A M B,
       interpP1x A M B, interpP1y A M B, B.x, B.y⟩,
      ?_, rfl, rfl, rfl, rfl, rfl, rfl, rfl, ?_, ?_⟩
    · simp only [interpolate, if_neg hsum]
    · -- getX cp tMid = M.x
      by_cases h1 : chord A M = 0
      · have hAM : A = M := chord_eq_zero.mp h1
        have ht : interpTMid A M B = 0 := by
          simp [interpTMid, h1]
        simp only [getX, ht, coefA, coefB]
        rw [← hAM]
        ring
      · by_cases h2 : chord M B = 0
        · have hMB : M = B := chord_eq_zero.mp h2
          have ht : interpTMid A M B = 1 := by
            rw [interpTMid, h2, add_zero, div_self h1]
          simp only [getX, ht, coefA, coefB]
          rw [hMB]
          ring
        · have hp1 : 0 < chord A M := lt_of_le_of_ne (chord_nonneg A M) (Ne.symm h1)
          have hp2 : 0 < chord M B := lt_of_le_of_ne (chord_nonneg M B) (Ne.symm h2)
          have ht0 : interpTMid A M B ≠ 0 := by
            have : 0 < interpTMid A M B := div_pos hp1 (by linarith)
            linarith
          have ht1 : 1 - interpTMid A M B ≠ 0 := by
            have hlt : interpTMid A M B < 1 := by
              rw [interpTMid, div_lt_one (by linarith)]
              linarith
            linarith
          simp only [getX]
          exact bezier_through ht0 ht1
    · -- getY cp tMid = M.y
      by_cases h1 : chord A M = 0
      · have hAM : A = M := chord_eq_zero.mp h1
        have ht : interpTMid A M B = 0 := by
          simp [interpTMid, h1]
        simp only [getY, ht, coefA, coefB]
        rw [← hAM]
        ring
      · by_cases h2 : chord M B = 0
        · have hMB : M = B := chord_eq_zero.mp h2
          have ht : interpTMid A M B = 1 := by
            rw [interpTMid, h2, add_zero, div_self h1]
          simp only [getY, ht, coefA, coefB]
          rw [hMB]
          ring
        · have hp1 : 0 < chord A M := lt_of_le_of_ne (chord_nonneg A M) (Ne.symm h1)
          have hp2 : 0 < chord M B := lt_of_le_of_ne (chord_nonneg M B) (Ne.symm h2)
          have ht0 : interpTMid A M B ≠ 0 := by
            have : 0 < interpTMid A M B := div_pos hp1 (by linarith)
            linarith
          have ht1 : 1 - interpTMid A M B ≠ 0 := by
            have hlt : interpTMid A M B < 1 := by
              rw [interpTMid, div_lt_one (by linarith)]
              linarith
            linarith
          simp only [getY]
          exact bezier_through ht0 ht1
  · rintro A M B ⟨rfl, rfl⟩
    have h0 : chord A A = 0 := chord_eq_zero.mpr rfl
    simp only [interpolate, h0, add_zero, if_pos]

/-- Witness for C3 at concrete inputs: the section 8 scenario
`A = (0,0), M = (30,40), B = (100,0)` interpolates through `M`, and a
coincident triple fails with DegenerateInterpolation. -/
theorem C3_interpolation_witness :
    (∃ t : ℝ, ∃ cp : ControlPoints,
      interpolate ⟨0, 0⟩ ⟨30, 40⟩ ⟨100, 0⟩ = .ok (t, cp) ∧
      getX cp t = 30 ∧ getY cp t = 40) ∧
    interpolate ⟨5, 7⟩ ⟨5, 7⟩ ⟨5, 7⟩ = .error .DegenerateInterpolation := by
  constructor
  · obtain ⟨t, cp, h1, h2, h3, h4, h5, h6, h7, h8, h9, h10⟩ :=
      C3_interpolation.1 ⟨0, 0⟩ ⟨30, 40⟩ ⟨100, 0⟩
        (by
          rintro ⟨hAM, hMB⟩
          have hx := congrArg Pt.x hAM
          norm_num at hx)
    exact ⟨t, cp, h1, h9, h10⟩
  · exact C3_interpolation.2 _ _ _ ⟨rfl, rfl⟩

/-- A JavaScript number as far as validation is concerned: either a
finite real value or one of the non-finite values NaN, +Infinity,
-Infinity.  Exact reals stand for the finite doubles of the code. -/
inductive NumVal where
  | fin (v : ℝ) : NumVal
  | nan : NumVal
  | posInf : NumVal
  | negInf : NumVal

/-- Finiteness test on an input number (`isFinite` in JavaScript):
true exactly on `fin` values. -/
def NumVal.isFinite : NumVal → Bool
  | .fin _ => true
  | _ => false

/-- NaN test on an input number (`isNaN` in JavaScript): true exactly
on `nan`; Infinity is not NaN. -/
def NumVal.isNaN : NumVal → Bool
  | .nan => true
  | _ => false

/-- The real carried by a finite input number; non-finite values have
no real counterpart and are only ever extracted behind a finiteness or
NaN guard. -/
def NumVal.toReal : NumVal → ℝ
  | .fin v => v
  | _ => 0

/-- Modelled from the spec: the raw coefficient record handed to
`fromObject` — all eight IControlPoints fields, each a possibly
non-finite number. -/
structure CoefsInput where
  x0 : NumVal
  y0 : NumVal
  cx : NumVal
  cy : NumVal
  cx1 : NumVal
  cy1 : NumVal
  x1 : NumVal
  y1 : NumVal

/-- All eight supplied coordinates are finite. -/
def CoefsInput.allFinite (c : CoefsInput) : Bool :=
  c.x0.isFinite && c.y0.isFinite && c.cx.isFinite && c.cy.isFinite &&
  c.cx1.isFinite && c.cy1.isFinite && c.x1.isFinite && c.y1.isFinite

/-- The control-point record extracted from a validated input. -/
def CoefsInput.extract (c : CoefsInput) : ControlPoints :=
  ⟨c.x0.toReal, c.y0.toReal, c.cx.toReal, c.cy.toReal,
   c.cx1.toReal, c.cy1.toReal, c.x1.toReal, c.y1.toReal⟩

/-- Modelled from the spec: the CurveModel state of section 3 — the
exclusively owned ControlPoints record plus the version counter whose
bump invalidates the cached arc-length table. -/
structure CurveState where
  pts : ControlPoints
  version : ℕ

/-- Modelled from the spec: `fromObject(coefs)` (section 4.1); the
engine source is not in the repository sources.  Replaces all eight
coordinates and bumps the version counter (invalidating cached
arc-length data), or fails with `InvalidGeometry` when any supplied
coordinate is non-finite, leaving the prior state untouched.  The
result pairs the state after the call with the error, if any. -/
def fromObject (s : CurveState) (c : CoefsInput) : CurveState × Option TSError :=
  if c.allFinite then
    (⟨c.extract, s.version + 1⟩, none)
  else
    (s, some .InvalidGeometry)

/-- C6: `fromObject` fails with `InvalidGeometry` exactly when some
supplied coordinate is non-finite; on failure the prior state (control
points and version) is retained unchanged — the mutation is rejected
atomically; on success all eight coordinates are replaced by the
supplied values and the version counter is bumped, invalidating cached
arc-length data. -/
theorem C6_fromObject :
    (∀ s : CurveState, ∀ c : CoefsInput,
      (fromObject s c).2 = some .InvalidGeometry ↔ c.allFinite = false) ∧
    (∀ s : CurveState, ∀ c : CoefsInput,
      (fromObject s c).2 ≠ none → (fromObject s c).1 = s) ∧
    (∀ s : CurveState, ∀ c : CoefsInput, c.allFinite = true →
      fromObject s c = (⟨c.extract, s.version + 1⟩, none)) := by
  refine ⟨fun s c => ?_, fun s c => ?_, fun s c h => ?_⟩
  · unfold fromObject
    cases h : c.allFinite <;> simp [h]
  · unfold fromObject
    cases h : c.allFinite <;> simp [h]
  · unfold fromObject
    rw [if_pos h]

/-- Witness for C6 at concrete inputs: a record with a NaN coordinate
is rejected with the prior state retained, and an all-finite record
replaces the points and bumps the version. -/
theorem C6_fromObject_witness :
    (fromObject ⟨⟨1, 2, 3, 4, 3, 4, 5, 6⟩, 7⟩
        ⟨.nan, .fin 0, .fin 0, .fin 0, .fin 0, .fin 0, .fin 0, .fin 0⟩).2
      = some .InvalidGeometry ∧
    (fromObject ⟨⟨1, 2, 3, 4, 3, 4, 5, 6⟩, 7⟩
        ⟨.nan, .fin 0, .fin 0, .fin 0, .fin 0, .fin 0, .fin 0, .fin 0⟩).1
      = ⟨⟨1, 2, 3, 4, 3, 4, 5, 6⟩, 7⟩ ∧
    fromObject ⟨⟨1, 2, 3, 4, 3, 4, 5, 6⟩, 7⟩
        ⟨.fin 9, .fin 8, .fin 7, .fin 6, .fin 7, .fin 6, .fin 5, .fin 4⟩
      = (⟨⟨9, 8, 7, 6, 7, 6, 5, 4⟩, 8⟩, none) := by
  refine ⟨(C6_fromObject.1 ⟨⟨1, 2, 3, 4, 3, 4, 5, 6⟩, 7⟩
      ⟨.nan, .fin 0, .fin 0, .fin 0, .fin 0, .fin 0, .fin 0, .fin 0⟩).mpr rfl,
    C6_fromObject.2.1 ⟨⟨1, 2, 3, 4, 3, 4, 5, 6⟩, 7⟩
      ⟨.nan, .fin 0, .fin 0, .fin 0, .fin 0, .fin 0, .fin 0, .fin 0⟩ ?_,
    C6_fromObject.2.2 ⟨⟨1, 2, 3, 4, 3, 4, 5, 6⟩, 7⟩
      ⟨.fin 9, .fin 8, .fin 7, .fin 6, .fin 7, .fin 6, .fin 5, .fin 4⟩ rfl⟩
  rw [(C6_fromObject.1 ⟨⟨1, 2, 3, 4, 3, 4, 5, 6⟩, 7⟩
      ⟨.nan, .fin 0, .fin 0, .fin 0, .fin 0, .fin 0, .fin 0, .fin 0⟩).mpr rfl]
  simp

/-- The four draggable display handles of the quad-bezier directive:
the two endpoints `_p0`/`_p2`, the control point `_p1` and the middle
interpolation point `_pI`. -/
inductive Handle where
  | h0 : Handle
  | h1 : Handle
  | h2 : Handle
  | hI : Handle
deriving DecidableEq

/-- State of the QuadBezierDirective demo (quad-bezier.directive):
interpolation point count, whether the click listener is attached,
positions of the four handles, per-handle dragging flags, the display
rectangle offset, and observables modelling the emitted point events,
the number of emitted length events and the arguments of every
`interpolate` call made on the underlying curve. -/
structure DirState where
  pointCount : ℕ
  listening : Bool
  p0 : Pt
  p1 : Pt
  p2 : Pt
  pI : Pt
  dragging : Handle → Bool
  rectLeft : ℝ
  rectTop : ℝ
  pointEvents : List Pt
  lengthEvents : ℕ
  interpCalls : List (Pt × Pt × Pt)

/-- `addInterpolationPoint(x, y)` of the directive: when fewer than
three points have been accepted and neither coordinate is NaN, the
count is bumped, the click assigns `_p0`, `_pI` or `_p2` (offset by
the display rectangle), a point event is emitted, and on the third
point the click listener is removed, `interpolate([p0, pI, p2])` is
invoked and a length event is emitted; otherwise nothing happens. -/
def addInterpolationPoint (s : DirState) (x y : NumVal) : DirState :=
  if s.pointCount < 3 then
    if !x.isNaN && !y.isNaN then
      let c := s.pointCount + 1
      let q : Pt := ⟨x.toReal - s.rectLeft, y.toReal - s.rectTop⟩
      let s1 :=
        if c = 1 then { s with pointCount := c, p0 := q }
        else if c = 2 then { s with pointCount := c, pI := q }
        else if c = 3 then { s with pointCount := c, p2 := q }
        else { s with pointCount := c }
      let s2 := { s1 with pointEvents := s1.pointEvents ++ [⟨x.toReal, y.toReal⟩] }
      if c = 3 then
        { s2 with listening := false,
                  interpCalls := s2.interpCalls ++ [(s2.p0, s2.pI, s2.p2)],
                  lengthEvents := s2.lengthEvents + 1 }
      else s2
    else s
  else s

/-- `clear()` of the directive: reset the count, re-attach the click
listener and park all four handles off-stage at `(-20, -20)`. -/
def clear (s : DirState) : DirState :=
  { s with pointCount := 0, listening := true,
           p0 := ⟨-20, -20⟩, p1 := ⟨-20, -20⟩,
           p2 := ⟨-20, -20⟩, pI := ⟨-20, -20⟩ }

/-- `__startDrag` of the directive: mark the event target as being
dragged. -/
def startDrag (s : DirState) (hd : Handle) : DirState :=
  { s with dragging := fun hh => if hh = hd then true else s.dragging hh }

/-- `__endDrag` of the directive: clear the target's dragging flag. -/
def endDrag (s : DirState) (hd : Handle) : DirState :=
  { s with dragging := fun hh => if hh = hd then false else s.dragging hh }

/-- Position update for the event target handle. -/
def setHandle (s : DirState) (hd : Handle) (q : Pt) : DirState :=
  match hd with
  | .h0 => { s with p0 := q }
  | .h1 => { s with p1 := q }
  | .h2 => { s with p2 := q }
  | .hI => { s with pI := q }

/-- `__dragging` of the directive: while the target is being dragged,
move it to the pointer position, re-run `interpolate([p0, pI, p2])`
on the curve and emit a length event; otherwise do nothing. -/
def dragMove (s : DirState) (hd : Handle) (gx gy : ℝ) : DirState :=
  if s.dragging hd then
    let s1 := setHandle s hd ⟨gx, gy⟩
    { s1 with interpCalls := s1.interpCalls ++ [(s1.p0, s1.pI, s1.p2)],
              lengthEvents := s1.lengthEvents + 1 }
  else s

/-- The directive state right after `ngOnInit`/`__setup`: no points,
listening for clicks, all handles parked off-stage, nothing dragged,
no events emitted yet. -/
def initDir (rl rt : ℝ) : DirState :=
  ⟨0, true, ⟨-20, -20⟩, ⟨-20, -20⟩, ⟨-20, -20⟩, ⟨-20, -20⟩,
   fun _ => false, rl, rt, [], 0, []⟩

/-- States of the directive reachable from initialization through its
public handlers. -/
inductive DirReachable : DirState → Prop where
  | init (rl rt : ℝ) : DirReachable (initDir rl rt)
  | add {s : DirState} (h : DirReachable s) (x y : NumVal) :
      DirReachable (addInterpolationPoint s x y)
  | clearStep {s : DirState} (h : DirReachable s) : DirReachable (clear s)
  | start {s : DirState} (h : DirReachable s) (hd : Handle) :
      DirReachable (startDrag s hd)
  | stop {s : DirState} (h : DirReachable s) (hd : Handle) :
      DirReachable (endDrag s hd)
  | drag {s : DirState} (h : DirReachable s) (hd : Handle) (gx gy : ℝ) :
      DirReachable (dragMove s hd gx gy)

/-- C10: in the demo directive the interpolation point count never
exceeds three; `addInterpolationPoint` with a NaN coordinate, or after
three points have been accepted, changes no state and emits no event;
and `interpolate` on the curve is only ever invoked with exactly three
points ordered `[first endpoint, middle interpolation point, second
endpoint]`, both on initial entry and during dragging. -/
theorem C10_directive :
    (∀ s : DirState, DirReachable s → s.pointCount ≤ 3) ∧
    (∀ s : DirState, ∀ x y : NumVal, (x.isNaN = true ∨ y.isNaN = true) →
      addInterpolationPoint s x y = s) ∧
    (∀ s : DirState, ∀ x y : NumVal, 3 ≤ s.pointCount →
      addInterpolationPoint s x y = s) ∧
    (∀ s : DirState, ∀ x y : NumVal,
      (addInterpolationPoint s x y).interpCalls = s.interpCalls ∨
      (addInterpolationPoint s x y).interpCalls = s.interpCalls ++
        [((addInterpolationPoint s x y).p0, (addInterpolationPoint s x y).pI,
          (addInterpolationPoint s x y).p2)]) ∧
    (∀ s : DirState, ∀ hd : Handle, ∀ gx gy : ℝ,
      (dragMove s hd gx gy).interpCalls = s.interpCalls ∨
      (dragMove s hd gx gy).interpCalls = s.interpCalls ++
        [((dragMove s hd gx gy).p0, (dragMove s hd gx gy).pI,
          (dragMove s hd gx gy).p2)]) := by
  have hcount : ∀ (s : DirState) (x y : NumVal), s.pointCount ≤ 3 →
      (addInterpolationPoint s x y).pointCount ≤ 3 := by
    intro s x y hs
    simp only [addInterpolationPoint]
    split_ifs <;> (try simp) <;> omega
  refine ⟨?_, ?_, ?_, ?_, ?_⟩
  · intro s hs
    induction hs with
    | init rl rt => simp [initDir]
    | add h x y ih => exact hcount _ x y ih
    | clearStep h ih => simp [clear]
    | start h hd ih => simpa [startDrag] using ih
    | stop h hd ih => simpa [endDrag] using ih
    | drag h hd gx gy ih =>
        simp only [dragMove]
        split_ifs
        · cases hd <;> simpa [setHandle] using ih
        · exact ih
  · intro s x y h
    simp only [addInterpolationPoint]
    rcases h with h | h <;> simp [h]
  · intro s x y h
    simp only [addInterpolationPoint]
    rw [if_neg (by omega)]
  · intro s x y
    simp only [addInterpolationPoint]
    split_ifs <;> simp
  · intro s hd gx gy
    simp only [dragMove]
    split_ifs
    · right
      cases hd <;> simp [setHandle]
    · left
      rfl

/-- Witness for C10 at concrete inputs: the invariant at the freshly
initialized directive, and a NaN click is a strict no-op there. -/
theorem C10_directive_witness :
    (initDir 0 0).pointCount ≤ 3 ∧
    addInterpolationPoint (initDir 0 0) .nan (.fin 5) = initDir 0 0 :=
  ⟨C10_directive.1 _ (DirReachable.init 0 0),
   C10_directive.2.1 _ _ _ (Or.inl rfl)⟩

/-- Modelled from the spec: the arc-length integrand of section 4.3,
the speed `√(x'(u)² + y'(u)²)`. -/
noncomputable def speed (cp : ControlPoints) (t : ℝ) : ℝ :=
  Real.sqrt (getXPrime cp t ^ 2 + getYPrime cp t ^ 2)

/-- Clamp a parameter into the valid domain `[0,1]`. -/
noncomputable def clamp01 (t : ℝ) : ℝ := max 0 (min t 1)

/-- Modelled from the spec: `lengthAt(t)` is the arc length
`∫₀ᵗ √(x'(u)² + y'(u)²) du` of section 4.3; the quadrature rule of the
missing engine approximates exactly this integral (callers accept
approximate results), so the model uses the exact integral.  The
contract declares the result a nonnegative arc length from `0` to `t`,
so the parameter is clamped into the valid domain `[0,1]`. -/
noncomputable def lengthAt (cp : ControlPoints) (t : ℝ) : ℝ :=
  ∫ u in (0:ℝ)..clamp01 t, speed cp u

/-- Modelled from the spec: `totalLength() = lengthAt(1)`
(section 4.3). -/
noncomputable def totalLength (cp : ControlPoints) : ℝ := lengthAt cp 1

/-- Modelled from the spec: `sAtT(t)` returns the normalized arc
length `lengthAt(t)/totalLength` (section 4.4), with the degenerate
point-curve guard of section 4.1: when the total length vanishes every
length query returns `0` without any normalization division. -/
noncomputable def sAtT (cp : ControlPoints) (t : ℝ) : ℝ :=
  if totalLength cp = 0 then 0 else lengthAt cp t / totalLength cp

lemma speed_nonneg (cp : ControlPoints) (t : ℝ) : 0 ≤ speed cp t :=
  Real.sqrt_nonneg _

lemma speed_continuous (cp : ControlPoints) : Continuous (speed cp) := by
  have h : Continuous fun t => getXPrime cp t ^ 2 + getYPrime cp t ^ 2 := by
    unfold getXPrime getYPrime
    fun_prop
  exact h.sqrt

lemma speed_integrable (cp : ControlPoints) (a b : ℝ) :
    IntervalIntegrable (speed cp) MeasureTheory.volume a b :=
  (speed_continuous cp).intervalIntegrable a b

lemma clamp01_nonneg (t : ℝ) : 0 ≤ clamp01 t := le_max_left _ _

lemma clamp01_le_one (t : ℝ) : clamp01 t ≤ 1 := by
  unfold clamp01
  rcases le_total t 1 with h | h <;> simp [min_eq_left, min_eq_right, h]

lemma clamp01_mono {a b : ℝ} (h : a ≤ b) : clamp01 a ≤ clamp01 b := by
  unfold clamp01
  exact max_le_max le_rfl (min_le_min h le_rfl)

lemma clamp01_of_mem {t : ℝ} (h0 : 0 ≤ t) (h1 : t ≤ 1) : clamp01 t = t := by
  unfold clamp01
  rw [min_eq_left h1, max_eq_right h0]

lemma clamp01_zero : clamp01 0 = 0 := clamp01_of_mem le_rfl zero_le_one

lemma clamp01_one : clamp01 1 = 1 := clamp01_of_mem zero_le_one le_rfl

lemma lengthAt_nonneg (cp : ControlPoints) (t : ℝ) : 0 ≤ lengthAt cp t :=
  intervalIntegral.integral_nonneg (clamp01_nonneg t)
    fun u _ => speed_nonneg cp u

/-- Difference of arc lengths is the integral of the speed over the
clamped parameter interval. -/
lemma lengthAt_sub (cp : ControlPoints) (a b : ℝ) :
    lengthAt cp b - lengthAt cp a = ∫ u in clamp01 a..clamp01 b, speed cp u := by
  unfold lengthAt
  rw [← intervalIntegral.integral_add_adjacent_intervals
    (speed_integrable cp 0 (clamp01 a)) (speed_integrable cp (clamp01 a) (clamp01 b))]
  ring

lemma lengthAt_mono (cp : ControlPoints) {a b : ℝ} (h : a ≤ b) :
    lengthAt cp a ≤ lengthAt cp b := by
  have hd : 0 ≤ lengthAt cp b - lengthAt cp a := by
    rw [lengthAt_sub]
    exact intervalIntegral.integral_nonneg (clamp01_mono h)
      fun u _ => speed_nonneg cp u
  linarith

lemma lengthAt_zero (cp : ControlPoints) : lengthAt cp 0 = 0 := by
  unfold lengthAt
  rw [clamp01_zero, intervalIntegral.integral_same]

lemma lengthAt_le_total (cp : ControlPoints) (t : ℝ) :
    lengthAt cp t ≤ totalLength cp := by
  unfold totalLength
  have hd : 0 ≤ lengthAt cp 1 - lengthAt cp t := by
    rw [lengthAt_sub]
    refine intervalIntegral.integral_nonneg ?_ fun u _ => speed_nonneg cp u
    rw [clamp01_one]
    exact clamp01_le_one t
  linarith

lemma totalLength_nonneg (cp : ControlPoints) : 0 ≤ totalLength cp :=
  lengthAt_nonneg cp 1

lemma sAtT_zero (cp : ControlPoints) : sAtT cp 0 = 0 := by
  unfold sAtT
  split_ifs with h
  · rfl
  · rw [lengthAt_zero, zero_div]

lemma sAtT_one (cp : ControlPoints) (h : 0 < totalLength cp) : sAtT cp 1 = 1 := by
  have hne : totalLength cp ≠ 0 := ne_of_gt h
  unfold sAtT
  rw [if_neg hne]
  exact div_self hne

lemma sAtT_monotone (cp : ControlPoints) : Monotone (sAtT cp) := by
  intro a b hab
  unfold sAtT
  split_ifs with h
  · exact le_rfl
  · have hpos : 0 < totalLength cp :=
      lt_of_le_of_ne (totalLength_nonneg cp) (Ne.symm h)
    exact (div_le_div_iff_of_pos_right hpos).mpr (lengthAt_mono cp hab)

lemma sAtT_mem (cp : ControlPoints) (t : ℝ) : 0 ≤ sAtT cp t ∧ sAtT cp t ≤ 1 := by
  unfold sAtT
  split_ifs with h
  · exact ⟨le_rfl, zero_le_one⟩
  · have hpos : 0 < totalLength cp :=
      lt_of_le_of_ne (totalLength_nonneg cp) (Ne.symm h)
    constructor
    · exact div_nonneg (lengthAt_nonneg cp t) (le_of_lt hpos)
    · rw [div_le_one hpos]
      exact lengthAt_le_total cp t

/-- Modelled from the spec: the configured root-finder epsilon
(default `1e-6`, section 6). -/
noncomputable def rootEps : ℝ := 1 / 1000000

/-- Modelled from the spec: the root-finder iteration cap (default 50,
section 6). -/
def maxIterations : ℕ := 50

/-- Modelled from the spec: the arc-length table resolution (default
100 uniform samples, section 6). -/
def tableResolution : ℕ := 100

/-- Modelled from the spec: bisection refinement of section 4.4 on
`f(t) = sAtT(t) - s` inside a bracket, run until `|f(mid)| < eps` or
the iteration budget is exhausted; on non-convergence it returns the
best bracket midpoint rather than fail. -/
noncomputable def bisect (f : ℝ → ℝ) (eps : ℝ) : ℕ → ℝ → ℝ → ℝ
  | 0, lo, hi => (lo + hi) / 2
  | n + 1, lo, hi =>
    if |f ((lo + hi) / 2)| < eps then (lo + hi) / 2
    else if f ((lo + hi) / 2) < 0 then bisect f eps n ((lo + hi) / 2) hi
    else bisect f eps n lo ((lo + hi) / 2)

/-- Modelled from the spec: binary search of the cached monotone table
(section 4.4) for an index bracketing the queried value; the fuel
argument bounds the search depth (2⁷ = 128 covers the 100-entry
table). -/
noncomputable def ibisect (g : ℕ → ℝ) (s : ℝ) : ℕ → ℕ → ℕ → ℕ
  | 0, lo, _ => lo
  | n + 1, lo, hi =>
    if hi ≤ lo + 1 then lo
    else if g ((lo + hi) / 2) ≤ s then ibisect g s n ((lo + hi) / 2) hi
    else ibisect g s n lo ((lo + hi) / 2)

/-- The table bracket index found by binary search over the uniform
`(t_i, sAtT(t_i))` samples. -/
noncomputable def tableIndex (cp : ControlPoints) (sc : ℝ) : ℕ :=
  ibisect (fun j => sAtT cp ((j : ℝ) / (tableResolution : ℝ))) sc 7 0 tableResolution

/-- Modelled from the spec: `getTAtS(s)` (sections 4.4, 6 and 7); the
engine source is not in the repository sources.  Out-of-range `s` is
clamped into `[0,1]` (the spec allows fail-or-clamp as a documented
implementer choice; this model clamps, consistently).  A degenerate
zero-length curve returns `0` without invoking root-finding
(section 4.1).  Otherwise the uniform table is binary-searched for a
bracket `[t_i, t_{i+1}]` and bisection refines
`f(t) = sAtT(t) - s` until `|f| < ε = 1e-6` or the 50-iteration cap,
returning the final bracket midpoint. -/
noncomputable def getTAtS (cp : ControlPoints) (s : ℝ) : ℝ :=
  if totalLength cp = 0 then 0
  else
    bisect (fun t => sAtT cp t - clamp01 s) rootEps maxIterations
      ((tableIndex cp (clamp01 s) : ℝ) / (tableResolution : ℝ))
      (((tableIndex cp (clamp01 s) + 1 : ℕ) : ℝ) / (tableResolution : ℝ))

/-- The fully degenerate point curve with all control points at the
origin. -/
def pointCurve : ControlPoints := ⟨0, 0, 0, 0, 0, 0, 0, 0⟩

lemma degenerate_xPrime {cp : ControlPoints} (h1 : cp.x0 = cp.cx)
    (h2 : cp.cx = cp.x1) (t : ℝ) : getXPrime cp t = 0 := by
  rw [getXPrime, ← h1, h1, h2]
  ring

lemma degenerate_yPrime {cp : ControlPoints} (h3 : cp.y0 = cp.cy)
    (h4 : cp.cy = cp.y1) (t : ℝ) : getYPrime cp t = 0 := by
  rw [getYPrime, ← h3, h3, h4]
  ring

lemma degenerate_lengthAt {cp : ControlPoints} (h1 : cp.x0 = cp.cx)
    (h2 : cp.cx = cp.x1) (h3 : cp.y0 = cp.cy) (h4 : cp.cy = cp.y1)
    (t : ℝ) : lengthAt cp t = 0 := by
  have hsp : speed cp = fun _ => (0 : ℝ) := by
    funext u
    rw [speed, degenerate_xPrime h1 h2, degenerate_yPrime h3 h4]
    norm_num
  rw [lengthAt, hsp, intervalIntegral.integral_zero]

lemma degenerate_total {cp : ControlPoints} (h1 : cp.x0 = cp.cx)
    (h2 : cp.cx = cp.x1) (h3 : cp.y0 = cp.cy) (h4 : cp.cy = cp.y1) :
    totalLength cp = 0 :=
  degenerate_lengthAt h1 h2 h3 h4 1

lemma degenerate_sAtT {cp : ControlPoints} (h1 : cp.x0 = cp.cx)
    (h2 : cp.cx = cp.x1) (h3 : cp.y0 = cp.cy) (h4 : cp.cy = cp.y1)
    (t : ℝ) : sAtT cp t = 0 := by
  rw [sAtT, if_pos (degenerate_total h1 h2 h3 h4)]

lemma degenerate_getTAtS {cp : ControlPoints} (h1 : cp.x0 = cp.cx)
    (h2 : cp.cx = cp.x1) (h3 : cp.y0 = cp.cy) (h4 : cp.cy = cp.y1)
    (s : ℝ) : getTAtS cp s = 0 := by
  rw [getTAtS, if_pos (degenerate_total h1 h2 h3 h4)]

/-- C9: when `P0 = P1 = P2` the curve is a single point:
`getXPrime`/`getYPrime` vanish everywhere, every length query
(`lengthAt`, `totalLength`, `sAtT`) returns `0`, and `getTAtS`
returns `0` through the degenerate guard, without invoking
root-finding, so the normalization never divides by zero. -/
theorem C9_degenerate :
    ∀ cp : ControlPoints,
      cp.x0 = cp.cx → cp.cx = cp.x1 → cp.y0 = cp.cy → cp.cy = cp.y1 →
      (∀ t : ℝ, getXPrime cp t = 0) ∧ (∀ t : ℝ, getYPrime cp t = 0) ∧
      (∀ t : ℝ, lengthAt cp t = 0) ∧ totalLength cp = 0 ∧
      (∀ t : ℝ, sAtT cp t = 0) ∧ (∀ s : ℝ, getTAtS cp s = 0) :=
  fun _ h1 h2 h3 h4 =>
    ⟨degenerate_xPrime h1 h2, degenerate_yPrime h3 h4,
     degenerate_lengthAt h1 h2 h3 h4, degenerate_total h1 h2 h3 h4,
     degenerate_sAtT h1 h2 h3 h4, degenerate_getTAtS h1 h2 h3 h4⟩

/-- Witness for C9 at a concrete input: the point curve with all
control points at `(2,3)` evaluates all degenerate queries to `0`. -/
theorem C9_degenerate_witness :
    getXPrime ⟨2, 3, 2, 3, 2, 3, 2, 3⟩ 7 = 0 ∧
    getYPrime ⟨2, 3, 2, 3, 2, 3, 2, 3⟩ 7 = 0 ∧
    lengthAt ⟨2, 3, 2, 3, 2, 3, 2, 3⟩ (1 / 2) = 0 ∧
    totalLength ⟨2, 3, 2, 3, 2, 3, 2, 3⟩ = 0 ∧
    sAtT ⟨2, 3, 2, 3, 2, 3, 2, 3⟩ (1 / 2) = 0 ∧
    getTAtS ⟨2, 3, 2, 3, 2, 3, 2, 3⟩ (1 / 2) = 0 := by
  obtain ⟨a, b, c, d, e, f⟩ := C9_degenerate ⟨2, 3, 2, 3, 2, 3, 2, 3⟩ rfl rfl rfl rfl
  exact ⟨a 7, b 7, c (1 / 2), d, e (1 / 2), f (1 / 2)⟩

/-- Counterexample for C2 as stated: the degenerate point curve is a
valid curve (all coordinates finite; the spec explicitly allows
degenerate geometry), yet `sAtT 1 = 0 ≠ 1` there. -/
theorem C2_sAtT_counterexample :
    sAtT pointCurve 1 = 0 ∧ sAtT pointCurve 1 ≠ 1 := by
  have h : sAtT pointCurve 1 = 0 := degenerate_sAtT rfl rfl rfl rfl 1
  refine ⟨h, ?_⟩
  rw [h]
  norm_num

/-- C2 (amended): for every curve, `sAtT 0 = 0`, `sAtT` is
monotone non-decreasing and takes values in `[0,1]`; `sAtT 1 = 1`
holds for every curve of positive total length (on the degenerate
point curve `sAtT` is identically `0`). -/
theorem C2_sAtT_normalized :
    (∀ cp : ControlPoints, sAtT cp 0 = 0) ∧
    (∀ cp : ControlPoints, 0 < totalLength cp → sAtT cp 1 = 1) ∧
    (∀ cp : ControlPoints, Monotone (sAtT cp)) ∧
    (∀ cp : ControlPoints, ∀ t : ℝ, 0 ≤ sAtT cp t ∧ sAtT cp t ≤ 1) :=
  ⟨sAtT_zero, sAtT_one, sAtT_monotone, sAtT_mem⟩

lemma demo_xp (t : ℝ) : getXPrime demoCurve t = 100 := by
  simp only [getXPrime, demoCurve]
  ring

lemma demo_yp (t : ℝ) : getYPrime demoCurve t = 200 - 400 * t := by
  simp only [getYPrime, demoCurve]
  ring

lemma demo_speed_lower (t : ℝ) : 100 ≤ speed demoCurve t := by
  rw [speed, demo_xp, demo_yp]
  exact Real.le_sqrt_of_sq_le (by nlinarith [sq_nonneg (200 - 400 * t)])

lemma demo_speed_upper (t : ℝ) : speed demoCurve t ≤ 100 + |200 - 400 * t| := by
  rw [speed, demo_xp, demo_yp]
  rw [Real.sqrt_le_iff]
  constructor
  · positivity
  · nlinarith [sq_abs (200 - 400 * t), abs_nonneg (200 - 400 * t)]

lemma integral_linear (p q a b : ℝ) :
    ∫ u in a..b, (p + q * u) = p * (b - a) + q * ((b ^ 2 - a ^ 2) / 2) := by
  have hg : IntervalIntegrable (fun u : ℝ => q * u) MeasureTheory.volume a b :=
    Continuous.intervalIntegrable (by fun_prop) a b
  rw [intervalIntegral.integral_add intervalIntegrable_const hg]
  rw [intervalIntegral.integral_const, intervalIntegral.integral_const_mul,
    integral_id]
  simp only [smul_eq_mul]
  ring

lemma demo_upper_integrand_continuous :
    Continuous fun u : ℝ => 100 + |200 - 400 * u| := by
  have h : Continuous fun u : ℝ => 200 - 400 * u := by fun_prop
  exact continuous_const.add h.abs

lemma demo_upper_integral :
    ∫ u in (0:ℝ)..1, (100 + |200 - 400 * u|) = 200 := by
  have hint : ∀ a b : ℝ, IntervalIntegrable
      (fun u : ℝ => 100 + |200 - 400 * u|) MeasureTheory.volume a b :=
    fun a b => demo_upper_integrand_continuous.intervalIntegrable a b
  rw [← intervalIntegral.integral_add_adjacent_intervals
    (hint 0 (1 / 2)) (hint (1 / 2) 1)]
  have hL : ∫ u in (0:ℝ)..(1 / 2), (100 + |200 - 400 * u|)
      = ∫ u in (0:ℝ)..(1 / 2), (300 + (-400) * u) := by
    refine intervalIntegral.integral_congr fun u hu => ?_
    rw [Set.uIcc_of_le (by norm_num)] at hu
    obtain ⟨h0, h1⟩ := hu
    rw [abs_of_nonneg (by linarith)]
    ring
  have hR : ∫ u in (1/2:ℝ)..1, (100 + |200 - 400 * u|)
      = ∫ u in (1/2:ℝ)..1, (-100 + 400 * u) := by
    refine intervalIntegral.integral_congr fun u hu => ?_
    rw [Set.uIcc_of_le (by norm_num)] at hu
    obtain ⟨h0, h1⟩ := hu
    rw [abs_of_nonpos (by linarith)]
    ring
  rw [hL, hR, integral_linear, integral_linear]
  norm_num

lemma demo_total_lower : 100 ≤ totalLength demoCurve := by
  unfold totalLength lengthAt
  rw [clamp01_one]
  have h : (100:ℝ) = ∫ _ in (0:ℝ)..1, (100:ℝ) := by
    rw [intervalIntegral.integral_const]
    norm_num
  rw [h]
  exact intervalIntegral.integral_mono_on (by norm_num)
    intervalIntegrable_const (speed_integrable demoCurve 0 1)
    fun u _ => demo_speed_lower u

lemma demo_total_upper : totalLength demoCurve ≤ 200 := by
  unfold totalLength lengthAt
  rw [clamp01_one]
  calc (∫ u in (0:ℝ)..1, speed demoCurve u)
      ≤ ∫ u in (0:ℝ)..1, (100 + |200 - 400 * u|) :=
        intervalIntegral.integral_mono_on (by norm_num)
          (speed_integrable demoCurve 0 1)
          (demo_upper_integrand_continuous.intervalIntegrable 0 1)
          fun u _ => demo_speed_upper u
    _ = 200 := demo_upper_integral

lemma demo_total_pos : 0 < totalLength demoCurve :=
  lt_of_lt_of_le (by norm_num) demo_total_lower

/-- Witness for C2 at a concrete input: on the demo curve (positive
total length) the normalized arc length is `0` at `t = 0` and `1` at
`t = 1`. -/
theorem C2_sAtT_normalized_witness :
    sAtT demoCurve 0 = 0 ∧ sAtT demoCurve 1 = 1 :=
  ⟨C2_sAtT_normalized.1 demoCurve,
   C2_sAtT_normalized.2.1 demoCurve demo_total_pos⟩

/-- Counterexample for C8 as stated: on the concrete curve
`P0=(0,0), P1=(50,100), P2=(100,0)` the total arc length is at most
`200` (pointwise `√(x'²+y'²) ≤ |x'| + |y'|` integrates to `200`), so
it is more than `8` away from the claimed `208.7`; the true value is
`≈ 147.9`. -/
theorem C8_arcLength_counterexample :
    totalLength demoCurve ≤ 200 ∧ 8 < |totalLength demoCurve - 208.7| := by
  refine ⟨demo_total_upper, ?_⟩
  have hneg : totalLength demoCurve - 208.7 < 0 := by
    have := demo_total_upper
    norm_num
    linarith
  rw [abs_of_neg hneg]
  have := demo_total_upper
  norm_num
  linarith

/-- C8 (amended): for every real `t`, `lengthAt` is nonnegative,
`lengthAt 0 = 0`, `lengthAt` is monotone non-decreasing, and
`totalLength() = lengthAt(1)`; on the concrete curve
`P0=(0,0), P1=(50,100), P2=(100,0)` the total length lies between
`100` and `200` (its true value is `≈ 147.9`, not the `≈ 208.7`
stated by the specification). -/
theorem C8_arcLength :
    (∀ cp : ControlPoints, ∀ t : ℝ, 0 ≤ lengthAt cp t) ∧
    (∀ cp : ControlPoints, lengthAt cp 0 = 0) ∧
    (∀ cp : ControlPoints, Monotone (lengthAt cp)) ∧
    (∀ cp : ControlPoints, totalLength cp = lengthAt cp 1) ∧
    100 ≤ totalLength demoCurve ∧ totalLength demoCurve ≤ 200 :=
  ⟨lengthAt_nonneg, lengthAt_zero,
   fun cp _ _ h => lengthAt_mono cp h,
   fun _ => rfl, demo_total_lower, demo_total_upper⟩

/-- The derivative `B'(t)` packaged as a complex number, so that the
speed is its absolute value and the triangle inequality is
available. -/
def Bp (cp : ControlPoints) (t : ℝ) : ℂ :=
  ⟨getXPrime cp t, getYPrime cp t⟩

/-- A uniform bound on the speed over `[0,1]`: the larger of the two
endpoint speeds (the derivative is affine in `t`, so its norm is
convex). -/
noncomputable def speedBound (cp : ControlPoints) : ℝ :=
  max (speed cp 0) (speed cp 1)

lemma speed_eq_abs (cp : ControlPoints) (t : ℝ) :
    speed cp t = Complex.abs (Bp cp t) := by
  rw [speed, Bp, Complex.abs_apply, Complex.normSq_mk]
  congr 1
  ring

lemma Bp_affine (cp : ControlPoints) (t : ℝ) :
    Bp cp t = (((1 - t : ℝ)) : ℂ) * Bp cp 0 + ((t : ℝ) : ℂ) * Bp cp 1 := by
  unfold Bp getXPrime getYPrime
  apply Complex.ext <;>
    simp [Complex.add_re, Complex.add_im, Complex.mul_re, Complex.mul_im] <;>
    ring

lemma Bp_from0 (cp : ControlPoints) (t : ℝ) :
    Bp cp t = Bp cp 0 + ((t : ℝ) : ℂ) * (Bp cp 1 - Bp cp 0) := by
  rw [Bp_affine cp t]
  push_cast
  ring

lemma Bp_from1 (cp : ControlPoints) (t : ℝ) :
    Bp cp t = Bp cp 1 + (((1 - t : ℝ)) : ℂ) * (Bp cp 0 - Bp cp 1) := by
  rw [Bp_affine cp t]
  push_cast
  ring

lemma abs_add_lower (v x : ℂ) :
    Complex.abs v - Complex.abs x ≤ Complex.abs (v + x) := by
  calc Complex.abs v - Complex.abs x
      = Complex.abs v - Complex.abs (-x) := by rw [Complex.abs.map_neg]
    _ ≤ |Complex.abs v - Complex.abs (-x)| := le_abs_self _
    _ ≤ Complex.abs (v - -x) := Complex.abs.abs_abv_sub_le_abv_sub _ _
    _ = Complex.abs (v + x) := by rw [sub_neg_eq_add]

lemma speed_le_speedBound (cp : ControlPoints) {t : ℝ}
    (h0 : 0 ≤ t) (h1 : t ≤ 1) : speed cp t ≤ speedBound cp := by
  rw [speed_eq_abs, Bp_affine cp t]
  calc Complex.abs ((((1 - t : ℝ)) : ℂ) * Bp cp 0 + ((t : ℝ) : ℂ) * Bp cp 1)
      ≤ Complex.abs ((((1 - t : ℝ)) : ℂ) * Bp cp 0)
        + Complex.abs (((t : ℝ) : ℂ) * Bp cp 1) := Complex.abs.add_le _ _
    _ = (1 - t) * Complex.abs (Bp cp 0) + t * Complex.abs (Bp cp 1) := by
        rw [map_mul, map_mul, Complex.abs_ofReal, Complex.abs_ofReal,
          abs_of_nonneg (by linarith), abs_of_nonneg h0]
    _ = (1 - t) * speed cp 0 + t * speed cp 1 := by
        rw [speed_eq_abs, speed_eq_abs]
    _ ≤ (1 - t) * speedBound cp + t * speedBound cp := by
        have hb0 : speed cp 0 ≤ speedBound cp := le_max_left _ _
        have hb1 : speed cp 1 ≤ speedBound cp := le_max_right _ _
        have hn : (0:ℝ) ≤ 1 - t := by linarith
        nlinarith
    _ = speedBound cp := by ring

lemma speed_lower_from0 (cp : ControlPoints) {u : ℝ} (hu : 0 ≤ u) :
    speed cp 0 - u * (speed cp 0 + speed cp 1) ≤ speed cp u := by
  have hdiff : Complex.abs (Bp cp 1 - Bp cp 0)
      ≤ speed cp 1 + speed cp 0 := by
    calc Complex.abs (Bp cp 1 - Bp cp 0)
        ≤ Complex.abs (Bp cp 1) + Complex.abs (-Bp cp 0) := by
          rw [sub_eq_add_neg]
          exact Complex.abs.add_le _ _
      _ = speed cp 1 + speed cp 0 := by
          rw [Complex.abs.map_neg, ← speed_eq_abs, ← speed_eq_abs]
  have habs : Complex.abs (((u : ℝ) : ℂ) * (Bp cp 1 - Bp cp 0))
      ≤ u * (speed cp 0 + speed cp 1) := by
    rw [map_mul, Complex.abs_ofReal, abs_of_nonneg hu]
    nlinarith
  have hlow := abs_add_lower (Bp cp 0) (((u : ℝ) : ℂ) * (Bp cp 1 - Bp cp 0))
  have e0 : speed cp 0 = Complex.abs (Bp cp 0) := speed_eq_abs cp 0
  rw [speed_eq_abs cp u, Bp_from0 cp u]
  linarith

lemma speed_lower_from1 (cp : ControlPoints) {u : ℝ} (hu : u ≤ 1) :
    speed cp 1 - (1 - u) * (speed cp 0 + speed cp 1) ≤ speed cp u := by
  have hdiff : Complex.abs (Bp cp 0 - Bp cp 1)
      ≤ speed cp 0 + speed cp 1 := by
    calc Complex.abs (Bp cp 0 - Bp cp 1)
        ≤ Complex.abs (Bp cp 0) + Complex.abs (-Bp cp 1) := by
          rw [sub_eq_add_neg]
          exact Complex.abs.add_le _ _
      _ = speed cp 0 + speed cp 1 := by
          rw [Complex.abs.map_neg, ← speed_eq_abs, ← speed_eq_abs]
  have habs : Complex.abs ((((1 - u : ℝ)) : ℂ) * (Bp cp 0 - Bp cp 1))
      ≤ (1 - u) * (speed cp 0 + speed cp 1) := by
    rw [map_mul, Complex.abs_ofReal, abs_of_nonneg (by linarith)]
    nlinarith
  have hlow := abs_add_lower (Bp cp 1) ((((1 - u : ℝ)) : ℂ) * (Bp cp 0 - Bp cp 1))
  have e1 : speed cp 1 = Complex.abs (Bp cp 1) := speed_eq_abs cp 1
  rw [speed_eq_abs cp u, Bp_from1 cp u]
  linarith

lemma total_split (cp : ControlPoints) :
    totalLength cp
      = (∫ u in (0:ℝ)..(1/2), speed cp u) + ∫ u in (1/2:ℝ)..1, speed cp u := by
  unfold totalLength lengthAt
  rw [clamp01_one,
    ← intervalIntegral.integral_add_adjacent_intervals
      (speed_integrable cp 0 (1/2)) (speed_integrable cp (1/2) 1)]

/-- Any quadratic Bézier curve satisfies `sup speed ≤ 4 · totalLength`:
the speed is the norm of an affine path, so it stays above a triangular
lower profile near its larger endpoint. -/
lemma speedBound_le_total (cp : ControlPoints) :
    speedBound cp ≤ 4 * totalLength cp := by
  have hsplit := total_split cp
  have hnn1 : 0 ≤ ∫ u in (0:ℝ)..(1/2), speed cp u :=
    intervalIntegral.integral_nonneg (by norm_num) fun u _ => speed_nonneg cp u
  have hnn2 : 0 ≤ ∫ u in (1/2:ℝ)..1, speed cp u :=
    intervalIntegral.integral_nonneg (by norm_num) fun u _ => speed_nonneg cp u
  rcases le_total (speed cp 1) (speed cp 0) with hc | hc
  · -- the left endpoint dominates
    have hbound : speedBound cp = speed cp 0 := max_eq_left hc
    have hmono : (∫ u in (0:ℝ)..(1/2),
        (speed cp 0 + (-(speed cp 0 + speed cp 1)) * u))
        ≤ ∫ u in (0:ℝ)..(1/2), speed cp u := by
      refine intervalIntegral.integral_mono_on (by norm_num)
        (Continuous.intervalIntegrable (by fun_prop) 0 (1/2))
        (speed_integrable cp 0 (1/2)) fun u hu => ?_
      have h := speed_lower_from0 cp hu.1
      linarith
    rw [integral_linear] at hmono
    have hS : speed cp 0 + speed cp 1 ≤ 2 * speed cp 0 := by linarith
    rw [hbound, hsplit]
    nlinarith
  · -- the right endpoint dominates
    have hbound : speedBound cp = speed cp 1 := max_eq_right hc
    have hmono : (∫ u in (1/2:ℝ)..1,
        ((speed cp 1 - (speed cp 0 + speed cp 1))
          + (speed cp 0 + speed cp 1) * u))
        ≤ ∫ u in (1/2:ℝ)..1, speed cp u := by
      refine intervalIntegral.integral_mono_on (by norm_num)
        (Continuous.intervalIntegrable (by fun_prop) (1/2) 1)
        (speed_integrable cp (1/2) 1) fun u hu => ?_
      have h := speed_lower_from1 cp hu.2
      linarith
    rw [integral_linear] at hmono
    have hS : speed cp 0 + speed cp 1 ≤ 2 * speed cp 1 := by linarith
    rw [hbound, hsplit]
    nlinarith

lemma clamp01_sub_le {a b : ℝ} (hab : a ≤ b) :
    clamp01 b - clamp01 a ≤ b - a := by
  simp only [clamp01, max_def, min_def]
  split_ifs <;> linarith

/-- The normalized arc length is globally `4`-Lipschitz upward: for
every curve and `a ≤ b`, `sAtT b - sAtT a ≤ 4 (b - a)`. -/
lemma sAtT_lipschitz (cp : ControlPoints) {a b : ℝ} (hab : a ≤ b) :
    sAtT cp b - sAtT cp a ≤ 4 * (b - a) := by
  unfold sAtT
  split_ifs with h
  · linarith
  · have hpos : 0 < totalLength cp :=
      lt_of_le_of_ne (totalLength_nonneg cp) (Ne.symm h)
    have hc : clamp01 a ≤ clamp01 b := clamp01_mono hab
    have hseg : lengthAt cp b - lengthAt cp a
        ≤ speedBound cp * (clamp01 b - clamp01 a) := by
      rw [lengthAt_sub]
      calc (∫ u in clamp01 a..clamp01 b, speed cp u)
          ≤ ∫ _ in clamp01 a..clamp01 b, speedBound cp := by
            refine intervalIntegral.integral_mono_on hc
              (speed_integrable cp _ _) intervalIntegrable_const fun u hu => ?_
            exact speed_le_speedBound cp
              (le_trans (clamp01_nonneg a) hu.1)
              (le_trans hu.2 (clamp01_le_one b))
        _ = speedBound cp * (clamp01 b - clamp01 a) := by
            rw [intervalIntegral.integral_const, smul_eq_mul]
            ring
    have h4 : speedBound cp * (clamp01 b - clamp01 a)
        ≤ 4 * totalLength cp * (b - a) := by
      have hw : clamp01 b - clamp01 a ≤ b - a := clamp01_sub_le hab
      have hb0 : 0 ≤ speedBound cp :=
        le_trans (speed_nonneg cp 0) (le_max_left _ _)
      have := speedBound_le_total cp
      nlinarith
    rw [div_sub_div_same, div_le_iff₀ hpos]
    nlinarith

/-- The bisection result is always the midpoint of a sub-bracket of
the starting bracket whose endpoints still straddle the root. -/
lemma bisect_bracket (f : ℝ → ℝ) (eps : ℝ) :
    ∀ n : ℕ, ∀ lo hi : ℝ, lo ≤ hi → f lo ≤ 0 → 0 ≤ f hi →
      ∃ lo2 hi2 : ℝ, lo ≤ lo2 ∧ lo2 ≤ hi2 ∧ hi2 ≤ hi ∧
        bisect f eps n lo hi = (lo2 + hi2) / 2 ∧ f lo2 ≤ 0 ∧ 0 ≤ f hi2 := by
  intro n
  induction n with
  | zero =>
    intro lo hi hle hlo hhi
    exact ⟨lo, hi, le_rfl, hle, le_rfl, rfl, hlo, hhi⟩
  | succ n ih =>
    intro lo hi hle hlo hhi
    simp only [bisect]
    split_ifs with h1 h2
    · exact ⟨lo, hi, le_rfl, hle, le_rfl, rfl, hlo, hhi⟩
    · obtain ⟨lo2, hi2, ha, hb, hc, hd, he, hf2⟩ :=
        ih ((lo + hi) / 2) hi (by linarith) (le_of_lt h2) hhi
      exact ⟨lo2, hi2, by linarith, hb, hc, hd, he, hf2⟩
    · obtain ⟨lo2, hi2, ha, hb, hc, hd, he, hf2⟩ :=
        ih lo ((lo + hi) / 2) (by linarith) hlo (not_lt.mp h2)
      exact ⟨lo2, hi2, ha, hb, by linarith, hd, he, hf2⟩

/-- Convergence of the bisection refinement: for a monotone function
with a one-sided Lipschitz bound, the returned point either already
met the epsilon test or sits in a bracket whose residual is halved at
every iteration. -/
lemma bisect_err (f : ℝ → ℝ) (eps L : ℝ) (hmono : Monotone f)
    (hL : ∀ a b : ℝ, a ≤ b → f b - f a ≤ L * (b - a)) :
    ∀ n : ℕ, ∀ lo hi : ℝ, lo ≤ hi → f lo ≤ 0 → 0 ≤ f hi →
      |f (bisect f eps n lo hi)| < eps ∨
      |f (bisect f eps n lo hi)| ≤ L * (hi - lo) / 2 ^ n := by
  intro n
  induction n with
  | zero =>
    intro lo hi hle hlo hhi
    right
    simp only [bisect, pow_zero, div_one]
    have h1 : f lo ≤ f ((lo + hi) / 2) := hmono (by linarith)
    have h2 : f ((lo + hi) / 2) ≤ f hi := hmono (by linarith)
    have h3 := hL lo hi hle
    rw [abs_le]
    constructor <;> linarith
  | succ n ih =>
    intro lo hi hle hlo hhi
    simp only [bisect]
    split_ifs with h1 h2
    · exact Or.inl h1
    · rcases ih ((lo + hi) / 2) hi (by linarith) (le_of_lt h2) hhi with h | h
      · exact Or.inl h
      · right
        have heq : L * (hi - (lo + hi) / 2) / 2 ^ n
            = L * (hi - lo) / 2 ^ (n + 1) := by
          rw [pow_succ]
          ring
        rw [← heq]
        exact h
    · rcases ih lo ((lo + hi) / 2) (by linarith) hlo (not_lt.mp h2) with h | h
      · exact Or.inl h
      · right
        have heq : L * ((lo + hi) / 2 - lo) / 2 ^ n
            = L * (hi - lo) / 2 ^ (n + 1) := by
          rw [pow_succ]
          ring
        rw [← heq]
        exact h

/-- The binary table search returns an index whose pair of adjacent
samples brackets the queried value, provided the fuel covers the index
range. -/
lemma ibisect_bracket (g : ℕ → ℝ) (s : ℝ) :
    ∀ n : ℕ, ∀ lo hi : ℕ, lo < hi → hi - lo ≤ 2 ^ n →
      g lo ≤ s → s ≤ g hi →
      lo ≤ ibisect g s n lo hi ∧ ibisect g s n lo hi + 1 ≤ hi ∧
      g (ibisect g s n lo hi) ≤ s ∧ s ≤ g (ibisect g s n lo hi + 1) := by
  intro n
  induction n with
  | zero =>
    intro lo hi hlt hw hglo hghi
    have hhi : hi = lo + 1 := by omega
    subst hhi
    simp only [ibisect]
    exact ⟨le_rfl, le_rfl, hglo, hghi⟩
  | succ n ih =>
    intro lo hi hlt hw hglo hghi
    have h2n : (2:ℕ) ^ (n + 1) = 2 ^ n + 2 ^ n := by
      rw [pow_succ]
      ring
    rw [h2n] at hw
    simp only [ibisect]
    split_ifs with h1 h2
    · have hhi : hi = lo + 1 := by omega
      subst hhi
      exact ⟨le_rfl, le_rfl, hglo, hghi⟩
    · obtain ⟨a1, a2, a3, a4⟩ :=
        ih ((lo + hi) / 2) hi (by omega) (by omega) h2 hghi
      exact ⟨by omega, a2, a3, a4⟩
    · have hs2 : s ≤ g ((lo + hi) / 2) := le_of_lt (lt_of_not_le h2)
      obtain ⟨a1, a2, a3, a4⟩ :=
        ih lo ((lo + hi) / 2) (by omega) (by omega) hglo hs2
      exact ⟨a1, by omega, a3, a4⟩

lemma clamp01_idem (s : ℝ) : clamp01 (clamp01 s) = clamp01 s :=
  clamp01_of_mem (clamp01_nonneg s) (clamp01_le_one s)

lemma tableIndex_spec (cp : ControlPoints) {sc : ℝ} (hpos : 0 < totalLength cp)
    (h0 : 0 ≤ sc) (h1 : sc ≤ 1) :
    tableIndex cp sc + 1 ≤ tableResolution ∧
    sAtT cp ((tableIndex cp sc : ℝ) / (tableResolution : ℝ)) ≤ sc ∧
    sc ≤ sAtT cp (((tableIndex cp sc + 1 : ℕ) : ℝ) / (tableResolution : ℝ)) := by
  have hg0 : sAtT cp (((0:ℕ) : ℝ) / (tableResolution : ℝ)) ≤ sc := by
    rw [Nat.cast_zero, zero_div, sAtT_zero]
    exact h0
  have hg100 : sc ≤ sAtT cp (((tableResolution : ℕ) : ℝ) / (tableResolution : ℝ)) := by
    rw [div_self (by norm_num [tableResolution]), sAtT_one cp hpos]
    exact h1
  obtain ⟨a1, a2, a3, a4⟩ :=
    ibisect_bracket (fun j : ℕ => sAtT cp ((j : ℝ) / (tableResolution : ℝ))) sc
      7 0 tableResolution (by norm_num [tableResolution])
      (by norm_num [tableResolution]) hg0 hg100
  exact ⟨a2, a3, a4⟩

/-- For a curve of positive length, `getTAtS` returns the midpoint of
a bracket inside `[0,1]` whose normalized arc lengths straddle the
(clamped) query — exactly the best-bracket-midpoint contract. -/
lemma getTAtS_spec (cp : ControlPoints) (s : ℝ) (hpos : 0 < totalLength cp) :
    ∃ lo hi : ℝ, 0 ≤ lo ∧ lo ≤ hi ∧ hi ≤ 1 ∧
      getTAtS cp s = (lo + hi) / 2 ∧
      sAtT cp lo ≤ clamp01 s ∧ clamp01 s ≤ sAtT cp hi := by
  have hne : totalLength cp ≠ 0 := ne_of_gt hpos
  rw [getTAtS, if_neg hne]
  obtain ⟨hidx, hlo, hhi⟩ :=
    tableIndex_spec cp hpos (clamp01_nonneg s) (clamp01_le_one s)
  have hres : (0:ℝ) < (tableResolution : ℝ) := by norm_num [tableResolution]
  have hle : ((tableIndex cp (clamp01 s) : ℝ)) / (tableResolution : ℝ)
      ≤ ((tableIndex cp (clamp01 s) + 1 : ℕ) : ℝ) / (tableResolution : ℝ) := by
    refine (div_le_div_iff_of_pos_right hres).mpr ?_
    push_cast
    linarith
  have hflo : (fun t => sAtT cp t - clamp01 s)
      ((tableIndex cp (clamp01 s) : ℝ) / (tableResolution : ℝ)) ≤ 0 := by
    show sAtT cp ((tableIndex cp (clamp01 s) : ℝ) / (tableResolution : ℝ))
      - clamp01 s ≤ 0
    linarith
  have hfhi : 0 ≤ (fun t => sAtT cp t - clamp01 s)
      (((tableIndex cp (clamp01 s) + 1 : ℕ) : ℝ) / (tableResolution : ℝ)) := by
    show 0 ≤ sAtT cp (((tableIndex cp (clamp01 s) + 1 : ℕ) : ℝ)
      / (tableResolution : ℝ)) - clamp01 s
    linarith
  obtain ⟨lo2, hi2, b1, b2, b3, b4, b5, b6⟩ :=
    bisect_bracket (fun t => sAtT cp t - clamp01 s) rootEps maxIterations
      _ _ hle hflo hfhi
  have b5' : sAtT cp lo2 - clamp01 s ≤ 0 := b5
  have b6' : 0 ≤ sAtT cp hi2 - clamp01 s := b6
  refine ⟨lo2, hi2, ?_, b2, ?_, b4, by linarith, by linarith⟩
  · have hnn : (0:ℝ) ≤ (tableIndex cp (clamp01 s) : ℝ) / (tableResolution : ℝ) :=
      div_nonneg (Nat.cast_nonneg _) (le_of_lt hres)
    linarith
  · have hcast : ((tableIndex cp (clamp01 s) + 1 : ℕ) : ℝ)
        ≤ (tableResolution : ℝ) := by
      exact_mod_cast hidx
    have hup : ((tableIndex cp (clamp01 s) + 1 : ℕ) : ℝ)
        / (tableResolution : ℝ) ≤ 1 := by
      rw [div_le_one hres]
      exact hcast
    linarith

lemma getTAtS_mem (cp : ControlPoints) (s : ℝ) :
    0 ≤ getTAtS cp s ∧ getTAtS cp s ≤ 1 := by
  by_cases h : totalLength cp = 0
  · rw [getTAtS, if_pos h]
    norm_num
  · have hpos : 0 < totalLength cp :=
      lt_of_le_of_ne (totalLength_nonneg cp) (Ne.symm h)
    obtain ⟨lo, hi, h0, hlh, h1, heq, _, _⟩ := getTAtS_spec cp s hpos
    rw [heq]
    constructor <;> linarith

/-- C7: `getTAtS` clamps out-of-range `s` into `[0,1]` (the consistent
documented policy, rather than failing); for every `s` it returns a
value in `[0,1]`; it terminates and returns `0` on degenerate
zero-length geometry without iterating; and it never surfaces
non-convergence as an error: within the bounded iteration cap it
either already satisfies `|sAtT(t) - s| < ε` or returns the midpoint
of the best bracket whose arc lengths straddle `s`. -/
theorem C7_getTAtS_robust :
    (∀ cp : ControlPoints, ∀ s : ℝ, getTAtS cp s = getTAtS cp (clamp01 s)) ∧
    (∀ s : ℝ, 0 ≤ s → s ≤ 1 → clamp01 s = s) ∧
    (∀ cp : ControlPoints, ∀ s : ℝ, 0 ≤ getTAtS cp s ∧ getTAtS cp s ≤ 1) ∧
    (∀ cp : ControlPoints, ∀ s : ℝ, totalLength cp = 0 → getTAtS cp s = 0) ∧
    (∀ cp : ControlPoints, ∀ s : ℝ, 0 < totalLength cp →
      |sAtT cp (getTAtS cp s) - clamp01 s| < rootEps ∨
      ∃ lo hi : ℝ, 0 ≤ lo ∧ lo ≤ hi ∧ hi ≤ 1 ∧
        getTAtS cp s = (lo + hi) / 2 ∧
        sAtT cp lo ≤ clamp01 s ∧ clamp01 s ≤ sAtT cp hi) := by
  refine ⟨?_, fun s h0 h1 => clamp01_of_mem h0 h1, getTAtS_mem,
    fun cp s h => by rw [getTAtS, if_pos h], fun cp s hpos => ?_⟩
  · intro cp s
    simp only [getTAtS, clamp01_idem]
  · exact Or.inr (getTAtS_spec cp s hpos)

/-- Witness for C7 at concrete inputs: clamping at `s = 2`, the range
bound there, the degenerate return on the point curve, and the
converge-or-best-bracket alternative on the demo curve. -/
theorem C7_getTAtS_robust_witness :
    getTAtS demoCurve 2 = getTAtS demoCurve (clamp01 2) ∧
    clamp01 (1/2 : ℝ) = 1/2 ∧
    (0 ≤ getTAtS demoCurve 2 ∧ getTAtS demoCurve 2 ≤ 1) ∧
    getTAtS pointCurve (1/2) = 0 ∧
    (|sAtT demoCurve (getTAtS demoCurve (1/2)) - clamp01 (1/2)| < rootEps ∨
      ∃ lo hi : ℝ, 0 ≤ lo ∧ lo ≤ hi ∧ hi ≤ 1 ∧
        getTAtS demoCurve (1/2) = (lo + hi) / 2 ∧
        sAtT demoCurve lo ≤ clamp01 (1/2) ∧
        clamp01 (1/2) ≤ sAtT demoCurve hi) :=
  ⟨C7_getTAtS_robust.1 demoCurve 2,
   C7_getTAtS_robust.2.1 (1/2) (by norm_num) (by norm_num),
   C7_getTAtS_robust.2.2.1 demoCurve 2,
   C7_getTAtS_robust.2.2.2.1 pointCurve (1/2)
     (degenerate_total rfl rfl rfl rfl),
   C7_getTAtS_robust.2.2.2.2 demoCurve (1/2) demo_total_pos⟩

lemma demo_speed_symm (u : ℝ) :
    speed demoCurve (1 - u) = speed demoCurve u := by
  rw [speed, speed, demo_xp, demo_xp, demo_yp, demo_yp]
  congr 1
  ring

lemma demo_half_length :
    (∫ u in (1/2:ℝ)..1, speed demoCurve u)
      = ∫ u in (0:ℝ)..(1/2), speed demoCurve u := by
  have h := intervalIntegral.integral_comp_sub_left
    (a := (0:ℝ)) (b := (1/2:ℝ)) (speed demoCurve) 1
  have hcong : (∫ x in (0:ℝ)..(1/2), speed demoCurve (1 - x))
      = ∫ x in (0:ℝ)..(1/2), speed demoCurve x :=
    intervalIntegral.integral_congr fun x _ => demo_speed_symm x
  rw [hcong] at h
  norm_num at h
  exact h.symm

lemma demo_sAtT_half : sAtT demoCurve (1/2) = 1/2 := by
  have hsplit := total_split demoCurve
  have hlen : lengthAt demoCurve (1/2) = totalLength demoCurve / 2 := by
    rw [lengthAt, clamp01_of_mem (by norm_num) (by norm_num)]
    linarith [demo_half_length]
  rw [sAtT, if_neg (ne_of_gt demo_total_pos), hlen]
  field_simp [ne_of_gt demo_total_pos]
  ring

/-- On the demo curve the normalized arc length grows at rate at least
`1/2`: the speed is at least `100` pointwise and the total length is
at most `200`. -/
lemma demo_sAtT_strict {a b : ℝ} (h0 : 0 ≤ a) (hab : a ≤ b) (h1 : b ≤ 1) :
    (1/2) * (b - a) ≤ sAtT demoCurve b - sAtT demoCurve a := by
  have hseg : 100 * (b - a) ≤ lengthAt demoCurve b - lengthAt demoCurve a := by
    rw [lengthAt_sub, clamp01_of_mem h0 (le_trans hab h1),
      clamp01_of_mem (le_trans h0 hab) h1]
    calc (100:ℝ) * (b - a)
        = ∫ _ in a..b, (100:ℝ) := by
          rw [intervalIntegral.integral_const, smul_eq_mul]
          ring
      _ ≤ ∫ u in a..b, speed demoCurve u :=
          intervalIntegral.integral_mono_on hab intervalIntegrable_const
            (speed_integrable demoCurve a b) fun u _ => demo_speed_lower u
  simp only [sAtT]
  rw [if_neg (ne_of_gt demo_total_pos), if_neg (ne_of_gt demo_total_pos),
    div_sub_div_same, le_div_iff₀ demo_total_pos]
  nlinarith [demo_total_upper, demo_total_pos]

/-- C1: round-trip of the arc-length parameterization — for every
curve of positive total length and every `s ∈ [0,1]`,
`|sAtT(getTAtS(s)) - s| < ε` with the configured `ε = 1e-6` (the
table bracket has width `1/100`, the normalized arc length of any
quadratic Bézier is globally `4`-Lipschitz, and 50 bisection steps
leave a residual of at most `4/(100·2⁵⁰) < ε`); in particular, on the
symmetric curve `P0=(0,0), P1=(50,100), P2=(100,0)`, `getTAtS(0.5)`
is within `2ε` of `0.5`. -/
theorem C1_roundtrip :
    (∀ cp : ControlPoints, ∀ s : ℝ, 0 < totalLength cp → 0 ≤ s → s ≤ 1 →
      |sAtT cp (getTAtS cp s) - s| < rootEps) ∧
    |getTAtS demoCurve (1/2) - 1/2| ≤ 2 * rootEps := by
  have huniv : ∀ cp : ControlPoints, ∀ s : ℝ,
      0 < totalLength cp → 0 ≤ s → s ≤ 1 →
      |sAtT cp (getTAtS cp s) - s| < rootEps := by
    intro cp s hpos h0 h1
    have hsc : clamp01 s = s := clamp01_of_mem h0 h1
    have hne : totalLength cp ≠ 0 := ne_of_gt hpos
    obtain ⟨hidx, hlo, hhi⟩ :=
      tableIndex_spec cp hpos (clamp01_nonneg s) (clamp01_le_one s)
    have hres : (0:ℝ) < (tableResolution : ℝ) := by norm_num [tableResolution]
    have hle : ((tableIndex cp (clamp01 s) : ℝ)) / (tableResolution : ℝ)
        ≤ ((tableIndex cp (clamp01 s) + 1 : ℕ) : ℝ) / (tableResolution : ℝ) := by
      refine (div_le_div_iff_of_pos_right hres).mpr ?_
      push_cast
      linarith
    have hflo : (fun t => sAtT cp t - clamp01 s)
        ((tableIndex cp (clamp01 s) : ℝ) / (tableResolution : ℝ)) ≤ 0 := by
      show sAtT cp ((tableIndex cp (clamp01 s) : ℝ) / (tableResolution : ℝ))
        - clamp01 s ≤ 0
      linarith
    have hfhi : 0 ≤ (fun t => sAtT cp t - clamp01 s)
        (((tableIndex cp (clamp01 s) + 1 : ℕ) : ℝ) / (tableResolution : ℝ)) := by
      show 0 ≤ sAtT cp (((tableIndex cp (clamp01 s) + 1 : ℕ) : ℝ)
        / (tableResolution : ℝ)) - clamp01 s
      linarith
    have hmono : Monotone fun t => sAtT cp t - clamp01 s := by
      intro a b hab
      have := sAtT_monotone cp hab
      simp only
      linarith
    have hL : ∀ a b : ℝ, a ≤ b →
        (fun t => sAtT cp t - clamp01 s) b
          - (fun t => sAtT cp t - clamp01 s) a ≤ 4 * (b - a) := by
      intro a b hab
      have := sAtT_lipschitz cp hab
      simp only
      linarith
    have herr := bisect_err (fun t => sAtT cp t - clamp01 s) rootEps 4
      hmono hL maxIterations _ _ hle hflo hfhi
    have hwidth : ((tableIndex cp (clamp01 s) + 1 : ℕ) : ℝ) / (tableResolution : ℝ)
        - ((tableIndex cp (clamp01 s) : ℝ)) / (tableResolution : ℝ)
        = 1 / (tableResolution : ℝ) := by
      push_cast
      ring
    have hsmall : 4 * (1 / (tableResolution : ℝ)) / 2 ^ maxIterations
        < rootEps := by
      norm_num [tableResolution, maxIterations, rootEps]
    have hgoal : |sAtT cp (getTAtS cp s) - clamp01 s| < rootEps := by
      rw [getTAtS, if_neg hne]
      rcases herr with h | h
      · exact h
      · rw [hwidth] at h
        exact lt_of_le_of_lt h hsmall
    rw [hsc] at hgoal
    exact hgoal
  refine ⟨huniv, ?_⟩
  have hr := huniv demoCurve (1/2) demo_total_pos (by norm_num) (by norm_num)
  have hrmem := getTAtS_mem demoCurve (1/2)
  have hhalf := demo_sAtT_half
  obtain ⟨hra, hrb⟩ := abs_lt.mp hr
  rcases le_total (1/2) (getTAtS demoCurve (1/2)) with hcase | hcase
  · have hstrict := demo_sAtT_strict (a := 1/2) (b := getTAtS demoCurve (1/2))
      (by norm_num) hcase hrmem.2
    rw [hhalf] at hstrict
    rw [abs_of_nonneg (by linarith)]
    linarith
  · have hstrict := demo_sAtT_strict (a := getTAtS demoCurve (1/2)) (b := 1/2)
      hrmem.1 hcase (by norm_num)
    rw [hhalf] at hstrict
    rw [abs_of_nonpos (by linarith)]
    linarith

/-- Witness for C1 at a concrete input: the round trip at `s = 1/2` on
the demo curve. -/
theorem C1_roundtrip_witness :
    |sAtT demoCurve (getTAtS demoCurve (1/2)) - 1/2| < rootEps :=
  C1_roundtrip.1 demoCurve (1/2) demo_total_pos (by norm_num) (by norm_num)

end QuadBezier
